import Mathlib

/-!
Verification of the heap symbol resolution and type-scanning subsystem
declared in `src/runtime/search.h`.

The header declares four operations:

  lispobj* find_symbol(char*, char*, unsigned int*);          -- find via package
  struct symbol* lisp_symbol_from_tls_index(lispobj);
  boolean search_for_type(int, lispobj**, int*);              -- find via heap scan
  lispobj* search_for_symbol(char*, lispobj, lispobj);

The implementation file is not part of the sources, so the behaviour of the
four operations is modelled from the specification (sections 3, 4 and 7),
while the declared C signatures themselves are embedded directly from the
header for claims about the interface shape.
-/

/-- Error taxonomy of the subsystem (spec section 7): absence of a mapping or
exhaustion of a scan is `NotFound`; a decoded header implying a size or bound
violation is `Corruption`; a null or empty name, or `start > end`, is
`InvalidArgument`. -/
inductive ScanError where
  | NotFound
  | Corruption
  | InvalidArgument
deriving DecidableEq, Repr

/-- Modelled from the spec: the output of ObjectDescriptor (section 4.1), the
structured result of interpreting the raw header bits at a heap address: the
widetag (type discriminator, section 3) and the object size in words.  For a
symbol object, `symName` is the content of its name field (section 3); it is
only meaningful when `widetag` is the SYMBOL code. -/
structure ObjDesc where
  widetag : Nat
  sizeInWords : Nat
  symName : String
deriving DecidableEq, Repr

/-- Modelled from the spec: the readable heap as seen through raw header
interpretation.  `mem a = some d` means the bits at word address `a`, read as
an object header, decode to `d`; `none` means the header is unsizable
(section 4.5), i.e. it cannot yield any size at all. -/
abbrev Memory := Nat → Option ObjDesc

/-- Modelled from the spec: the reserved SYMBOL type code (section 3 invariant:
a well-formed symbol object's widetag equals the reserved SYMBOL code).  The
numeric value is platform-defined; the model fixes one concrete code. -/
def SYMBOL_WIDETAG : Nat := 0xAD

/-- Modelled from the spec: ObjectDescriptor `decode(address)` (section 4.1).
Returns the widetag and size decoded at `addr`, and fails (with Corruption at
the caller) if the header cannot yield a size that keeps the object within
the caller-supplied bound: an unsizable header, a zero size (the object could
not even cover its own header word), or a size carrying the object across
`bound` (section 3 invariant: a header implying a size that would cross `end`
signals corruption, never silently trusted). -/
def decode (mem : Memory) (addr bound : Nat) : Option ObjDesc :=
  match mem addr with
  | none => none
  | some d =>
    if d.sizeInWords = 0 then none
    else if bound < addr + d.sizeInWords then none
    else some d

theorem decode_raw {mem : Memory} {addr bound : Nat} {d : ObjDesc}
    (h : decode mem addr bound = some d) : mem addr = some d := by
  unfold decode at h
  cases hm : mem addr with
  | none => rw [hm] at h; exact absurd h (by simp)
  | some e =>
    rw [hm] at h
    by_cases h0 : e.sizeInWords = 0
    · simp [h0] at h
    · by_cases h1 : bound < addr + e.sizeInWords
      · simp [h0, h1] at h
      · simp [h0, h1] at h; rw [h]

theorem decode_pos {mem : Memory} {addr bound : Nat} {d : ObjDesc}
    (h : decode mem addr bound = some d) : 0 < d.sizeInWords := by
  unfold decode at h
  cases hm : mem addr with
  | none => rw [hm] at h; exact absurd h (by simp)
  | some e =>
    rw [hm] at h
    by_cases h0 : e.sizeInWords = 0
    · simp [h0] at h
    · by_cases h1 : bound < addr + e.sizeInWords
      · simp [h0, h1] at h
      · simp [h0, h1] at h; subst h; omega

theorem decode_le {mem : Memory} {addr bound : Nat} {d : ObjDesc}
    (h : decode mem addr bound = some d) : addr + d.sizeInWords ≤ bound := by
  unfold decode at h
  cases hm : mem addr with
  | none => rw [hm] at h; exact absurd h (by simp)
  | some e =>
    rw [hm] at h
    by_cases h0 : e.sizeInWords = 0
    · simp [h0] at h
    · by_cases h1 : bound < addr + e.sizeInWords
      · simp [h0, h1] at h
      · simp [h0, h1] at h; subst h; omega

theorem decode_oversized {mem : Memory} {addr bound : Nat} {d : ObjDesc}
    (hm : mem addr = some d) (hover : bound < addr + d.sizeInWords) :
    decode mem addr bound = none := by
  unfold decode
  rw [hm]
  by_cases h0 : d.sizeInWords = 0
  · simp [h0]
  · simp [h0, hover]

/-- Result of one `search_for_type` call (spec section 4.4): a found flag
together with the new cursor and remaining-budget values, or `Corruption`
surfaced distinctly from ordinary exhaustion. -/
inductive TypeScanResult where
  | found (cursor remaining : Nat)
  | exhausted (cursor remaining : Nat)
  | corruption
deriving DecidableEq, Repr

/-- Modelled from the spec: `search_for_type`, i.e. HeapTypeScanner
`findNextOfType(type, cursor, remaining, end)` (section 4.4), whose
implementation is absent from the sources.  Repeatedly decode the object at
`cursor`; on a widetag match, stop and report success with `cursor` left
pointing at the match (not advanced past it); otherwise advance `cursor` by
the decoded size, decrement `remaining`, and continue.  Failure (not an
error) when `remaining` reaches zero or `cursor` reaches `endA`; a decode
failure aborts with Corruption, distinct from exhaustion. -/
def search_for_type (mem : Memory) (type endA : Nat) : Nat → Nat → TypeScanResult
  | cursor, 0 => .exhausted cursor 0
  | cursor, remaining + 1 =>
    if endA ≤ cursor then .exhausted cursor (remaining + 1)
    else
      match decode mem cursor endA with
      | none => .corruption
      | some d =>
        if d.widetag = type then .found cursor (remaining + 1)
        else search_for_type mem type endA (cursor + d.sizeInWords) remaining

/-- Modelled from the spec: the scan loop of HeapSymbolScanner (section 4.5).
Linear scan of addresses below `endA`; for every decoded object whose widetag
is SYMBOL, the name field is compared to `name` by exact character equality,
and the first match in ascending address order is returned.  A decode failure
aborts with Corruption.  `fuel` is a structural recursion bound; since every
decoded size is positive, `fuel = endA - cursor` always suffices, and the
fuel-exhaustion case (hit only on an impossible shrinking-free loop) is
conservatively reported as Corruption. -/
def scanLoop (mem : Memory) (name : String) (endA : Nat) : Nat → Nat → Except ScanError Nat
  | cursor, 0 => if cursor < endA then .error .Corruption else .error .NotFound
  | cursor, fuel + 1 =>
    if cursor < endA then
      match decode mem cursor endA with
      | none => .error .Corruption
      | some d =>
        if d.widetag = SYMBOL_WIDETAG ∧ d.symName = name then .ok cursor
        else scanLoop mem name endA (cursor + d.sizeInWords) fuel
    else .error .NotFound

/-- Modelled from the spec: `search_for_symbol`, i.e. HeapSymbolScanner
`findSymbolByName(name, start, end)` (section 4.5), whose implementation is
absent from the sources.  Argument validation per section 7: a null or empty
name, or `start > end`, is `InvalidArgument`; otherwise the region
`[start, end)` is scanned for the first symbol object whose name equals
`name`. -/
def search_for_symbol (mem : Memory) (name : Option String) (start endA : Nat) :
    Except ScanError Nat :=
  match name with
  | none => .error .InvalidArgument
  | some n =>
    if n = "" then .error .InvalidArgument
    else if endA < start then .error .InvalidArgument
    else scanLoop mem n endA start (endA - start)

/-- Reference tiling of a heap region (spec section 3): the ascending list of
object start addresses obtained by decoding consecutive headers from `cursor`
up to `endA`; `none` when some header fails to decode within the bound.  The
fuel argument is a structural recursion bound; `some` is only ever returned
when the walk genuinely reached `endA`. -/
def walkLoop (mem : Memory) (endA : Nat) : Nat → Nat → Option (List Nat)
  | cursor, 0 => if cursor < endA then none else some []
  | cursor, fuel + 1 =>
    if cursor < endA then
      match decode mem cursor endA with
      | none => none
      | some d => (walkLoop mem endA (cursor + d.sizeInWords) fuel).map (cursor :: ·)
    else some []

/-- Object addresses tiling the region `[start, endA)`, when it is well formed. -/
def walkObjs (mem : Memory) (start endA : Nat) : Option (List Nat) :=
  walkLoop mem endA start (endA - start)

/-- Whether the header at address `a` decodes raw to widetag `type`. -/
def typeAt (mem : Memory) (type a : Nat) : Bool :=
  match mem a with
  | none => false
  | some d => d.widetag = type

/-- Whether the header at address `a` is a symbol whose name field equals `n`. -/
def symMatch (mem : Memory) (n : String) (a : Nat) : Bool :=
  match mem a with
  | none => false
  | some d => d.widetag = SYMBOL_WIDETAG && d.symName = n

/-- The caller protocol of spec section 4.4: repeatedly call
`search_for_type`, and after every successful call advance the cursor past
the reported match (by its decoded size) before the next call, reusing the
returned remaining budget.  Collects the reported match addresses in call
order.  `fuel` bounds the number of calls; every call either exhausts the
scan or strictly advances the cursor, so `endA - cursor + 1` calls always
suffice. -/
def enumLoop (mem : Memory) (type endA : Nat) : Nat → Nat → Nat → Except ScanError (List Nat)
  | _, _, 0 => .ok []
  | cursor, remaining, fuel + 1 =>
    match search_for_type mem type endA cursor remaining with
    | .corruption => .error .Corruption
    | .exhausted _ _ => .ok []
    | .found c r =>
      match decode mem c endA with
      | none => .error .Corruption
      | some d => (enumLoop mem type endA (c + d.sizeInWords) r fuel).map (c :: ·)

/-- Repeated `search_for_type` calls over `[start, endA)` with budget
`remaining`, the caller advancing past each match (spec section 4.4). -/
def enumerate (mem : Memory) (type start endA remaining : Nat) : Except ScanError (List Nat) :=
  enumLoop mem type endA start remaining (endA - start + 1)

/-- Modelled from the spec: a package (namespace) of the external Namespace
Table (sections 3 and 6), an exact-string-keyed mapping from symbol name to
the heap symbol object it holds (objects are identified by address). -/
abbrev Package := List (String × Nat)

/-- Modelled from the spec: the external Namespace Table (sections 3 and 6),
mapping namespace names to packages. -/
abbrev NamespaceTable := List (String × Package)

/-- Modelled from the spec: `find_symbol`, i.e. PackageSymbolResolver
`resolve(namespaceName, symbolName)` (section 4.2), whose implementation is
absent from the sources.  Inputs are two non-empty strings (null or empty is
`InvalidArgument`, section 7); the lookup delegates to the Namespace Table
with exact, case-sensitive string matching — no coercion, no partial match —
and fails with `NotFound` when the namespace, or the symbol within it, does
not exist.  The auxiliary output is implementation-defined diagnostic data
(section 4.2), modelled as the match position within the package. -/
def find_symbol (table : NamespaceTable) (nsName symName : Option String) :
    Except ScanError (Nat × Nat) :=
  match nsName, symName with
  | none, _ => .error .InvalidArgument
  | _, none => .error .InvalidArgument
  | some ns, some s =>
    if ns = "" ∨ s = "" then .error .InvalidArgument
    else
      match table.find? (fun p => p.1 = ns) with
      | none => .error .NotFound
      | some (_, pkg) =>
        match pkg.find? (fun q => q.1 = s) with
        | none => .error .NotFound
        | some (_, obj) => .ok (obj, pkg.findIdx (fun q => q.1 = s))

/-- Modelled from the spec: a live symbol object as seen by the TLS reverse
map (sections 3 and 4.3): its heap address and its stored TLS index.  Index 0
is the reserved sentinel meaning no thread-local binding. -/
structure SymbolObj where
  addr : Nat
  tls_index : Nat
deriving DecidableEq, Repr

/-- Modelled from the spec: `lisp_symbol_from_tls_index`, i.e.
TLSSymbolResolver `resolveFromTLSIndex(index)` (section 4.3), whose
implementation is absent from the sources.  Scans all live symbols comparing
the stored TLS index; returns `NotFound` for the sentinel unbound value (0,
section 3 invariant) or for an index matching no live symbol. -/
def lisp_symbol_from_tls_index (symbols : List SymbolObj) (idx : Nat) :
    Except ScanError SymbolObj :=
  if idx = 0 then .error .NotFound
  else
    match symbols.find? (fun s => s.tls_index = idx) with
    | none => .error .NotFound
    | some s => .ok s

/-! Embedding of the C declarations of `src/runtime/search.h` themselves, for
claims about the declared interface shape. -/

/-- The C types appearing in the declarations of `search.h`. -/
inductive CType where
  | int
  | unsignedInt
  | boolean
  | lispobj
  | charT
  | structSymbol
  | ptr (t : CType)
deriving DecidableEq, Repr

/-- A C function declaration: name, return type, parameter types in order. -/
structure CDecl where
  name : String
  ret : CType
  params : List CType
deriving DecidableEq, Repr

/-- `lispobj* find_symbol(char*, char*, unsigned int*)` (search.h line 15). -/
def find_symbol_decl : CDecl :=
  { name := "find_symbol"
    ret := .ptr .lispobj
    params := [.ptr .charT, .ptr .charT, .ptr .unsignedInt] }

/-- `struct symbol* lisp_symbol_from_tls_index(lispobj)` (search.h line 16). -/
def lisp_symbol_from_tls_index_decl : CDecl :=
  { name := "lisp_symbol_from_tls_index"
    ret := .ptr .structSymbol
    params := [.lispobj] }

/-- `boolean search_for_type(int, lispobj**, int*)` (search.h line 18). -/
def search_for_type_decl : CDecl :=
  { name := "search_for_type"
    ret := .boolean
    params := [.int, .ptr (.ptr .lispobj), .ptr .int] }

/-- `lispobj* search_for_symbol(char*, lispobj, lispobj)` (search.h line 19). -/
def search_for_symbol_decl : CDecl :=
  { name := "search_for_symbol"
    ret := .ptr .lispobj
    params := [.ptr .charT, .lispobj, .lispobj] }

/-- Whether a C type is a pointer type. -/
def CType.isPointer : CType → Bool
  | .ptr _ => true
  | _ => false

/-! Lemmas about the region walk. -/

theorem walkLoop_nil {mem : Memory} {endA cursor fuel : Nat}
    (h : walkLoop mem endA cursor fuel = some []) : endA ≤ cursor := by
  cases fuel with
  | zero =>
    unfold walkLoop at h
    by_cases hc : cursor < endA
    · simp [hc] at h
    · omega
  | succ f =>
    unfold walkLoop at h
    by_cases hc : cursor < endA
    · rw [if_pos hc] at h
      cases hd : decode mem cursor endA with
      | none => rw [hd] at h; simp at h
      | some d =>
        rw [hd] at h
        dsimp only at h
        cases hw : walkLoop mem endA (cursor + d.sizeInWords) f with
        | none => rw [hw] at h; simp at h
        | some l => rw [hw] at h; simp at h
    · omega

theorem walkLoop_cons {mem : Memory} {endA cursor fuel : Nat} {a : Nat} {rest : List Nat}
    (h : walkLoop mem endA cursor fuel = some (a :: rest)) :
    a = cursor ∧ cursor < endA ∧
      ∃ d f', fuel = f' + 1 ∧ decode mem cursor endA = some d ∧
        walkLoop mem endA (cursor + d.sizeInWords) f' = some rest := by
  cases fuel with
  | zero =>
    unfold walkLoop at h
    by_cases hc : cursor < endA
    · simp [hc] at h
    · simp [hc] at h
  | succ f =>
    unfold walkLoop at h
    by_cases hc : cursor < endA
    · rw [if_pos hc] at h
      cases hd : decode mem cursor endA with
      | none => rw [hd] at h; simp at h
      | some d =>
        rw [hd] at h
        dsimp only at h
        cases hw : walkLoop mem endA (cursor + d.sizeInWords) f with
        | none => rw [hw] at h; simp at h
        | some l =>
          rw [hw] at h
          dsimp only [Option.map] at h
          have hcons : cursor = a ∧ l = rest := by
            have := Option.some.inj h
            exact ⟨(List.cons.inj this).1, (List.cons.inj this).2⟩
          exact ⟨hcons.1.symm, hc, d, f, rfl, rfl, by rw [hw, hcons.2]⟩
    · rw [if_neg hc] at h; simp at h

theorem walkLoop_lb {mem : Memory} {endA : Nat} :
    ∀ {addrs : List Nat} {cursor fuel : Nat},
      walkLoop mem endA cursor fuel = some addrs → ∀ a ∈ addrs, cursor ≤ a := by
  intro addrs
  induction addrs with
  | nil => intro cursor fuel _ a ha; simp at ha
  | cons x rest ih =>
    intro cursor fuel h a ha
    obtain ⟨hx, _hc, d, f', _hf, hd, hw⟩ := walkLoop_cons h
    rcases List.mem_cons.mp ha with rfl | hmem
    · omega
    · have h1 := ih hw a hmem
      have h2 := decode_pos hd
      omega

theorem walkLoop_sorted {mem : Memory} {endA : Nat} :
    ∀ {addrs : List Nat} {cursor fuel : Nat},
      walkLoop mem endA cursor fuel = some addrs → addrs.Pairwise (· < ·) := by
  intro addrs
  induction addrs with
  | nil => intro cursor fuel _; exact List.Pairwise.nil
  | cons x rest ih =>
    intro cursor fuel h
    obtain ⟨hx, _hc, d, f', _hf, hd, hw⟩ := walkLoop_cons h
    refine List.Pairwise.cons ?_ (ih hw)
    intro b hb
    have h1 := walkLoop_lb hw b hb
    have h2 := decode_pos hd
    omega

theorem walkLoop_length {mem : Memory} {endA : Nat} :
    ∀ {addrs : List Nat} {cursor fuel : Nat},
      walkLoop mem endA cursor fuel = some addrs → addrs.length ≤ endA - cursor := by
  intro addrs
  induction addrs with
  | nil => intro cursor fuel _; simp
  | cons x rest ih =>
    intro cursor fuel h
    obtain ⟨_hx, hc, d, f', _hf, hd, hw⟩ := walkLoop_cons h
    have h1 := ih hw
    have h2 := decode_pos hd
    have h3 := decode_le hd
    simp only [List.length_cons]
    omega

/-! Lemmas relating the symbol scan loop to the region walk. -/

theorem scanLoop_eq_find {mem : Memory} {n : String} {endA : Nat} :
    ∀ {addrs : List Nat} {cursor wfuel sfuel : Nat},
      walkLoop mem endA cursor wfuel = some addrs →
      endA - cursor ≤ sfuel →
      scanLoop mem n endA cursor sfuel =
        match addrs.find? (symMatch mem n) with
        | some a => .ok a
        | none => .error .NotFound := by
  intro addrs
  induction addrs with
  | nil =>
    intro cursor wfuel sfuel h _
    have hc := walkLoop_nil h
    cases sfuel with
    | zero => simp [scanLoop, Nat.not_lt.mpr hc, List.find?]
    | succ f => simp [scanLoop, Nat.not_lt.mpr hc, List.find?]
  | cons x rest ih =>
    intro cursor wfuel sfuel h hs
    obtain ⟨hx, hc, d, f', _hf, hd, hw⟩ := walkLoop_cons h
    subst hx
    cases sfuel with
    | zero => omega
    | succ f =>
      have hraw := decode_raw hd
      by_cases hm : d.widetag = SYMBOL_WIDETAG ∧ d.symName = n
      · have hsm : symMatch mem n x = true := by
          simp [symMatch, hraw, hm.1, hm.2]
        rw [List.find?_cons_of_pos _ hsm]
        simp [scanLoop, hc, hd, hm]
      · have hsm : symMatch mem n x = false := by
          simp only [symMatch, hraw]
          by_cases h1 : d.widetag = SYMBOL_WIDETAG
          · have h2 : ¬d.symName = n := fun h2 => hm ⟨h1, h2⟩
            simp [h1, h2]
          · simp [h1]
        rw [List.find?_cons_of_neg _ (by simp [hsm])]
        have hpos := decode_pos hd
        have hle := decode_le hd
        have hstep : scanLoop mem n endA x (f + 1) =
            scanLoop mem n endA (x + d.sizeInWords) f := by
          simp [scanLoop, hc, hd, hm]
        rw [hstep]
        exact ih hw (by omega)

/-- In a strictly ascending list, `find?` returns an element no greater than
any other element satisfying the predicate. -/
theorem find?_min_of_sorted {l : List Nat} {p : Nat → Bool} {r : Nat}
    (hs : l.Pairwise (· < ·)) (hf : l.find? p = some r) :
    ∀ a ∈ l, p a = true → r ≤ a := by
  induction l with
  | nil => simp at hf
  | cons x rest ih =>
    intro a ha hp
    by_cases hx : p x = true
    · rw [List.find?_cons_of_pos _ hx] at hf
      have hr : x = r := Option.some.inj hf
      rcases List.mem_cons.mp ha with rfl | hmem
      · omega
      · have := (List.pairwise_cons.mp hs).1 a hmem
        omega
    · rw [List.find?_cons_of_neg _ (by simpa using hx)] at hf
      rcases List.mem_cons.mp ha with rfl | hmem
      · exact absurd hp hx
      · exact ih (List.pairwise_cons.mp hs).2 hf a hmem hp

/-! Lemmas about the type scanner and the resumable-call protocol. -/

theorem search_for_type_found {mem : Memory} {type endA : Nat} :
    ∀ {remaining cursor c r : Nat},
      search_for_type mem type endA cursor remaining = .found c r →
      typeAt mem type c = true ∧ cursor ≤ c ∧ c < endA ∧ r ≤ remaining := by
  intro remaining
  induction remaining with
  | zero => intro cursor c r h; simp [search_for_type] at h
  | succ rem ih =>
    intro cursor c r h
    unfold search_for_type at h
    by_cases hc : endA ≤ cursor
    · rw [if_pos hc] at h; simp at h
    · rw [if_neg hc] at h
      cases hd : decode mem cursor endA with
      | none => rw [hd] at h; simp at h
      | some d =>
        rw [hd] at h
        dsimp only at h
        by_cases hm : d.widetag = type
        · rw [if_pos hm] at h
          have h1 : cursor = c ∧ rem + 1 = r := by
            injection h with h1 h2
            exact ⟨h1, h2⟩
          obtain ⟨rfl, rfl⟩ := h1
          refine ⟨?_, le_refl _, by omega, le_refl _⟩
          simp [typeAt, decode_raw hd, hm]
        · rw [if_neg hm] at h
          obtain ⟨ht, h1, h2, h3⟩ := ih h
          have := decode_pos hd
          exact ⟨ht, by omega, h2, by omega⟩

theorem search_for_type_exhausted_at_end {mem : Memory} {type endA cursor r : Nat}
    (h : endA ≤ cursor) : search_for_type mem type endA cursor r = .exhausted cursor r := by
  cases r with
  | zero => simp [search_for_type]
  | succ n => simp [search_for_type, if_pos h]

theorem enumLoop_congr {mem : Memory} {type endA c1 r1 c2 r2 f : Nat}
    (h : search_for_type mem type endA c1 r1 = search_for_type mem type endA c2 r2) :
    enumLoop mem type endA c1 r1 (f + 1) = enumLoop mem type endA c2 r2 (f + 1) := by
  unfold enumLoop
  rw [h]

theorem enumLoop_eq_filter {mem : Memory} {type endA : Nat} :
    ∀ {addrs : List Nat} {cursor wfuel remaining fuel : Nat},
      walkLoop mem endA cursor wfuel = some addrs →
      addrs.length ≤ remaining →
      addrs.length + 1 ≤ fuel →
      enumLoop mem type endA cursor remaining fuel =
        .ok (addrs.filter (typeAt mem type)) := by
  intro addrs
  induction addrs with
  | nil =>
    intro cursor wfuel remaining fuel h _ hfuel
    have hc := walkLoop_nil h
    cases fuel with
    | zero => omega
    | succ f =>
      unfold enumLoop
      rw [search_for_type_exhausted_at_end hc]
      rfl
  | cons x rest ih =>
    intro cursor wfuel remaining fuel h hrem hfuel
    obtain ⟨hx, hc, d, f', _hf, hd, hw⟩ := walkLoop_cons h
    subst hx
    simp only [List.length_cons] at hrem hfuel
    cases fuel with
    | zero => omega
    | succ f =>
      cases remaining with
      | zero => omega
      | succ rem =>
        by_cases hm : d.widetag = type
        · have hstep : search_for_type mem type endA x (rem + 1) = .found x (rem + 1) := by
            unfold search_for_type
            rw [if_neg (by omega), hd]
            dsimp only
            rw [if_pos hm]
          unfold enumLoop
          rw [hstep]
          dsimp only
          rw [hd]
          dsimp only
          rw [ih hw (by omega) (by omega)]
          have hts : typeAt mem type x = true := by
            simp [typeAt, decode_raw hd, hm]
          simp [Except.map, List.filter_cons, hts]
        · have hstep : search_for_type mem type endA x (rem + 1) =
              search_for_type mem type endA (x + d.sizeInWords) rem := by
            conv_lhs => unfold search_for_type
            rw [if_neg (by omega), hd]
            dsimp only
            rw [if_neg hm]
          rw [enumLoop_congr hstep, ih hw (by omega) (by omega)]
          have hts : typeAt mem type x = false := by
            simp [typeAt, decode_raw hd, hm]
          simp [List.filter_cons, hts]

/-! Lemmas about memory agreement below the region end (no read at or past
the end address). -/

theorem decode_congr {mem mem' : Memory} {addr bound : Nat}
    (h : mem addr = mem' addr) : decode mem addr bound = decode mem' addr bound := by
  unfold decode
  rw [h]

theorem search_for_type_mem_congr {endA : Nat} {mem mem' : Memory} {type : Nat}
    (hagree : ∀ a, a < endA → mem a = mem' a) :
    ∀ {remaining cursor : Nat},
      search_for_type mem type endA cursor remaining =
        search_for_type mem' type endA cursor remaining := by
  intro remaining
  induction remaining with
  | zero => intro cursor; simp [search_for_type]
  | succ rem ih =>
    intro cursor
    unfold search_for_type
    by_cases hc : endA ≤ cursor
    · rw [if_pos hc, if_pos hc]
    · rw [if_neg hc, if_neg hc, decode_congr (hagree cursor (by omega))]
      cases hd : decode mem' cursor endA with
      | none => rfl
      | some d =>
        dsimp only
        by_cases hm : d.widetag = type
        · rw [if_pos hm, if_pos hm]
        · rw [if_neg hm, if_neg hm]
          exact ih

theorem scanLoop_mem_congr {endA : Nat} {mem mem' : Memory} {n : String}
    (hagree : ∀ a, a < endA → mem a = mem' a) :
    ∀ {fuel cursor : Nat},
      scanLoop mem n endA cursor fuel = scanLoop mem' n endA cursor fuel := by
  intro fuel
  induction fuel with
  | zero => intro cursor; rfl
  | succ f ih =>
    intro cursor
    unfold scanLoop
    by_cases hc : cursor < endA
    · rw [if_pos hc, if_pos hc, decode_congr (hagree cursor hc)]
      cases hd : decode mem' cursor endA with
      | none => rfl
      | some d =>
        dsimp only
        by_cases hm : d.widetag = SYMBOL_WIDETAG ∧ d.symName = n
        · rw [if_pos hm, if_pos hm]
        · rw [if_neg hm, if_neg hm]
          exact ih
    · rw [if_neg hc, if_neg hc]

/-! Concrete heaps used to exercise the theorems. -/

/-- A small heap for the type-scan witness: a non-symbol object at 0 (size
2), a symbol at 2 (size 3), a non-symbol object at 5 (size 3), region
`[0, 8)`. -/
def memC1 : Memory := fun a =>
  if a = 0 then some ⟨1, 2, ""⟩
  else if a = 2 then some ⟨SYMBOL_WIDETAG, 3, "X"⟩
  else if a = 5 then some ⟨9, 3, ""⟩
  else none

/-- A small heap with two symbols both named FOO, at addresses 0 and 3,
region `[0, 6)`. -/
def memC2 : Memory := fun a =>
  if a = 0 then some ⟨SYMBOL_WIDETAG, 3, "FOO"⟩
  else if a = 3 then some ⟨SYMBOL_WIDETAG, 3, "FOO"⟩
  else none

/-- A heap whose single header at 0 claims size 99, crossing any small
region end. -/
def memOversized : Memory := fun a =>
  if a = 0 then some ⟨7, 99, ""⟩ else none

/-- C1: over a region `[start, endA)` tiling into objects at addresses
`addrs`, repeated `search_for_type` calls with the caller advancing past each
match report exactly the matching addresses (no duplicates, no omissions) in
ascending address order; every successful call leaves the cursor pointing at
an object of the requested widetag (not advanced past it); and a further call
once the cursor has reached the end returns found=false with cursor and
remaining unchanged. -/
theorem search_for_type_enumerates_region {mem : Memory} {type start endA remaining : Nat}
    {addrs : List Nat}
    (hw : walkObjs mem start endA = some addrs)
    (hr : addrs.length ≤ remaining) :
    enumerate mem type start endA remaining = .ok (addrs.filter (typeAt mem type)) ∧
    (addrs.filter (typeAt mem type)).Pairwise (· < ·) ∧
    (∀ cur rem c r, search_for_type mem type endA cur rem = .found c r →
      typeAt mem type c = true) ∧
    (∀ c r, endA ≤ c → search_for_type mem type endA c r = .exhausted c r) := by
  unfold walkObjs at hw
  refine ⟨?_, ?_, ?_, ?_⟩
  · unfold enumerate
    exact enumLoop_eq_filter hw hr (by have := walkLoop_length hw; omega)
  · exact List.Pairwise.sublist (List.filter_sublist _) (walkLoop_sorted hw)
  · intro cur rem c r h
    exact (search_for_type_found h).1
  · intro c r h
    exact search_for_type_exhausted_at_end h

/-- C1 witness: on the concrete heap `memC1` over `[0, 8)` (objects at 0, 2,
5; only the one at 2 is a symbol), the enumeration reports exactly `[2]`. -/
theorem search_for_type_enumerates_region_witness :
    enumerate memC1 SYMBOL_WIDETAG 0 8 3 = .ok [2] ∧
    ([0, 2, 5].filter (typeAt memC1 SYMBOL_WIDETAG)).Pairwise (· < ·) := by
  have h := @search_for_type_enumerates_region memC1 SYMBOL_WIDETAG 0 8 3 [0, 2, 5]
    (by rfl) (by simp)
  exact ⟨h.1.trans (by rfl), h.2.1⟩

/-- C2: over a well-formed region, `search_for_symbol` returns the first
object in ascending-address order whose widetag is SYMBOL and whose name
equals `n` by exact equality; in particular the returned address is no
greater than that of any other matching symbol in the region. -/
theorem search_for_symbol_first_match {mem : Memory} {n : String} {start endA : Nat}
    {addrs : List Nat}
    (hn : n ≠ "") (hse : start ≤ endA)
    (hw : walkObjs mem start endA = some addrs) :
    search_for_symbol mem (some n) start endA =
      (match addrs.find? (symMatch mem n) with
       | some a => Except.ok a
       | none => Except.error ScanError.NotFound) ∧
    (∀ a ∈ addrs, symMatch mem n a = true →
      ∃ r, search_for_symbol mem (some n) start endA = Except.ok r ∧
        r ∈ addrs ∧ symMatch mem n r = true ∧ r ≤ a) := by
  unfold walkObjs at hw
  have heq : search_for_symbol mem (some n) start endA =
      (match addrs.find? (symMatch mem n) with
       | some a => Except.ok a
       | none => Except.error ScanError.NotFound) := by
    unfold search_for_symbol
    dsimp only
    rw [if_neg hn, if_neg (by omega : ¬ endA < start)]
    exact scanLoop_eq_find hw (le_refl _)
  refine ⟨heq, ?_⟩
  intro a ha hp
  cases hf : addrs.find? (symMatch mem n) with
  | none => exact absurd hp (List.find?_eq_none.mp hf a ha)
  | some r =>
    refine ⟨r, ?_, List.mem_of_find?_eq_some hf, List.find?_some hf,
      find?_min_of_sorted (walkLoop_sorted hw) hf a ha hp⟩
    rw [heq, hf]

/-- C2 witness: two symbols both named FOO at addresses 0 < 3; the scanner
returns address 0. -/
theorem search_for_symbol_first_match_witness :
    search_for_symbol memC2 (some "FOO") 0 6 = Except.ok 0 := by
  have h := @search_for_symbol_first_match memC2 "FOO" 0 6 [0, 3]
    (by decide) (by omega) (by rfl)
  exact h.1.trans (by rfl)

/-- C3: no scan reads at or past the region end — both scanners' results
depend only on memory below `endA` — and a decoded header whose size would
carry the object across `endA` makes the scan abort with Corruption rather
than being silently trusted. -/
theorem scan_reads_bounded_by_end {endA : Nat} :
    (∀ (mem mem' : Memory) (type cursor remaining : Nat),
      (∀ a, a < endA → mem a = mem' a) →
      search_for_type mem type endA cursor remaining =
        search_for_type mem' type endA cursor remaining) ∧
    (∀ (mem mem' : Memory) (name : Option String) (start : Nat),
      (∀ a, a < endA → mem a = mem' a) →
      search_for_symbol mem name start endA = search_for_symbol mem' name start endA) ∧
    (∀ (mem : Memory) (type cursor remaining : Nat) (d : ObjDesc),
      cursor < endA → mem cursor = some d → endA < cursor + d.sizeInWords →
      search_for_type mem type endA cursor (remaining + 1) = .corruption) ∧
    (∀ (mem : Memory) (n : String) (start : Nat) (d : ObjDesc),
      n ≠ "" → start < endA → mem start = some d → endA < start + d.sizeInWords →
      search_for_symbol mem (some n) start endA = .error .Corruption) := by
  refine ⟨?_, ?_, ?_, ?_⟩
  · intro mem mem' type cursor remaining hagree
    exact search_for_type_mem_congr hagree
  · intro mem mem' name start hagree
    unfold search_for_symbol
    cases name with
    | none => rfl
    | some nm =>
      dsimp only
      by_cases h1 : nm = ""
      · rw [if_pos h1, if_pos h1]
      · rw [if_neg h1, if_neg h1]
        by_cases h2 : endA < start
        · rw [if_pos h2, if_pos h2]
        · rw [if_neg h2, if_neg h2]
          exact scanLoop_mem_congr hagree
  · intro mem type cursor remaining d hc hm hover
    unfold search_for_type
    rw [if_neg (by omega), decode_oversized hm hover]
  · intro mem n start d hn hc hm hover
    unfold search_for_symbol
    dsimp only
    rw [if_neg hn, if_neg (by omega : ¬ endA < start)]
    obtain ⟨f, hf⟩ : ∃ f, endA - start = f + 1 := ⟨endA - start - 1, by omega⟩
    rw [hf]
    unfold scanLoop
    rw [if_pos hc, decode_oversized hm hover]

/-- C3 witness: a header at 0 claiming size 99 in region `[0, 4)` makes both
scanners abort with Corruption, and two heaps agreeing below the end give the
same scan result. -/
theorem scan_reads_bounded_by_end_witness :
    search_for_type memOversized 7 4 0 1 = TypeScanResult.corruption ∧
    search_for_symbol memOversized (some "A") 0 4 = Except.error ScanError.Corruption ∧
    search_for_type memC1 5 4 0 2 = search_for_type (fun a => if a < 4 then memC1 a else none) 5 4 0 2 := by
  have h := @scan_reads_bounded_by_end 4
  refine ⟨h.2.2.1 memOversized 7 0 0 ⟨7, 99, ""⟩ (by omega) (by rfl) (by norm_num), ?_, ?_⟩
  · exact h.2.2.2 memOversized "A" 0 ⟨7, 99, ""⟩ (by decide) (by omega) (by rfl) (by norm_num)
  · refine h.1 memC1 (fun a => if a < 4 then memC1 a else none) 5 0 2 ?_
    intro a ha
    simp [ha]

/-- C4: `search_for_type` reports ordinary exhaustion (found=false, state
reported back unchanged) when the remaining budget is zero — for every
memory, hence without dereferencing the cursor — or when the cursor has
reached the end; and a decode failure is surfaced as Corruption, a result
distinct from both exhaustion and success. -/
theorem search_for_type_exhaustion_vs_corruption {type endA : Nat} :
    (∀ (mem : Memory) (cursor : Nat),
      search_for_type mem type endA cursor 0 = .exhausted cursor 0) ∧
    (∀ (mem : Memory) (cursor r : Nat), endA ≤ cursor →
      search_for_type mem type endA cursor r = .exhausted cursor r) ∧
    (∀ (mem : Memory) (cursor r : Nat), cursor < endA →
      decode mem cursor endA = none →
      search_for_type mem type endA cursor (r + 1) = .corruption) ∧
    (∀ c r, TypeScanResult.corruption ≠ TypeScanResult.exhausted c r ∧
      TypeScanResult.corruption ≠ TypeScanResult.found c r) := by
  refine ⟨?_, ?_, ?_, ?_⟩
  · intro mem cursor
    simp [search_for_type]
  · intro mem cursor r h
    exact search_for_type_exhausted_at_end h
  · intro mem cursor r hc hd
    unfold search_for_type
    rw [if_neg (by omega), hd]
  · intro c r
    exact ⟨fun h => TypeScanResult.noConfusion h, fun h => TypeScanResult.noConfusion h⟩

/-- C4 witness: with zero budget the scanner returns found=false on a heap
that decodes nowhere (so no dereference can have occurred), and an
undecodable header under the end yields Corruption. -/
theorem search_for_type_exhaustion_vs_corruption_witness :
    search_for_type (fun _ => none) 7 4 9 0 = TypeScanResult.exhausted 9 0 ∧
    search_for_type (fun _ => none) 7 4 9 5 = TypeScanResult.exhausted 9 5 ∧
    search_for_type (fun _ => none) 7 4 0 1 = TypeScanResult.corruption := by
  have h := @search_for_type_exhaustion_vs_corruption 7 4
  exact ⟨h.1 (fun _ => none) 9, h.2.1 (fun _ => none) 9 5 (by omega),
    h.2.2.1 (fun _ => none) 0 0 (by omega) (by rfl)⟩

/-- Keyed lookup in an association list with distinct keys finds exactly the
held entry. -/
theorem assoc_find? {β : Type} {l : List (String × β)} {k : String} {v : β}
    (hnd : (l.map Prod.fst).Nodup) (hm : (k, v) ∈ l) :
    l.find? (fun p => p.1 = k) = some (k, v) := by
  induction l with
  | nil => simp at hm
  | cons x rest ih =>
    rcases List.mem_cons.mp hm with rfl | hmem
    · exact List.find?_cons_of_pos _ (by simp)
    · rw [List.map_cons, List.nodup_cons] at hnd
      have hx : ¬(x.1 = k) := by
        intro hk
        have hkm : k ∈ rest.map Prod.fst := List.mem_map.mpr ⟨(k, v), hmem, rfl⟩
        exact hnd.1 (hk ▸ hkm)
      rw [List.find?_cons_of_neg _ (by simp [hx])]
      exact ih hnd.2 hmem

/-- C5: for every (namespace, symbol) pair actually interned in the
Namespace Table, `find_symbol` returns exactly the object the table holds for
that pair (using exact, case-sensitive key equality), and reports `NotFound`
when the namespace, or the symbol within it, does not exist. -/
theorem find_symbol_delegates_to_table (table : NamespaceTable) (ns s : String)
    (hns : ns ≠ "") (hs : s ≠ "") :
    (∀ (pkg : Package) (obj : Nat),
      (table.map Prod.fst).Nodup → (ns, pkg) ∈ table →
      (pkg.map Prod.fst).Nodup → (s, obj) ∈ pkg →
      ∃ aux, find_symbol table (some ns) (some s) = .ok (obj, aux)) ∧
    (table.find? (fun p => p.1 = ns) = none →
      find_symbol table (some ns) (some s) = .error .NotFound) ∧
    (∀ pkg : Package, (table.map Prod.fst).Nodup → (ns, pkg) ∈ table →
      pkg.find? (fun q => q.1 = s) = none →
      find_symbol table (some ns) (some s) = .error .NotFound) := by
  have hne : ¬(ns = "" ∨ s = "") := by
    intro h
    rcases h with h | h
    · exact hns h
    · exact hs h
  refine ⟨?_, ?_, ?_⟩
  · intro pkg obj hndt hmt hndp hmp
    refine ⟨pkg.findIdx (fun q => q.1 = s), ?_⟩
    unfold find_symbol
    dsimp only
    rw [if_neg hne, assoc_find? hndt hmt]
    dsimp only
    rw [assoc_find? hndp hmp]
  · intro hnone
    unfold find_symbol
    dsimp only
    rw [if_neg hne, hnone]
  · intro pkg hndt hmt hnone
    unfold find_symbol
    dsimp only
    rw [if_neg hne, assoc_find? hndt hmt]
    dsimp only
    rw [hnone]

/-- C5 witness: in a table holding CL mapping CAR to object 10, resolution
returns object 10, and the case-mismatched name car (exact matching, no
coercion) as well as a missing namespace yield `NotFound`. -/
theorem find_symbol_delegates_to_table_witness :
    (∃ aux, find_symbol [("CL", [("CAR", 10)])] (some "CL") (some "CAR") =
      .ok (10, aux)) ∧
    find_symbol [("CL", [("CAR", 10)])] (some "CL") (some "car") =
      .error ScanError.NotFound ∧
    find_symbol [("CL", [("CAR", 10)])] (some "USER") (some "CAR") =
      .error ScanError.NotFound := by
  refine ⟨?_, ?_, ?_⟩
  · exact (find_symbol_delegates_to_table [("CL", [("CAR", 10)])] "CL" "CAR"
      (by decide) (by decide)).1 [("CAR", 10)] 10 (by simp) (by simp) (by simp) (by simp)
  · exact (find_symbol_delegates_to_table [("CL", [("CAR", 10)])] "CL" "car"
      (by decide) (by decide)).2.2 [("CAR", 10)] (by simp) (by simp) (by rfl)
  · exact (find_symbol_delegates_to_table [("CL", [("CAR", 10)])] "USER" "CAR"
      (by decide) (by decide)).2.1 (by rfl)

/-- C6: TLS reverse lookup inverts TLS index assignment: for a live symbol
holding non-sentinel TLS index i (indices being unique per live symbol),
`lisp_symbol_from_tls_index i` returns that symbol; the sentinel index 0, or
an index held by no live symbol, yields `NotFound`. -/
theorem tls_reverse_lookup_inverse (symbols : List SymbolObj) (i : Nat) :
    (∀ s : SymbolObj, s ∈ symbols → s.tls_index = i → i ≠ 0 →
      (∀ s' ∈ symbols, s'.tls_index = i → s' = s) →
      lisp_symbol_from_tls_index symbols i = .ok s) ∧
    lisp_symbol_from_tls_index symbols 0 = .error .NotFound ∧
    ((∀ s ∈ symbols, s.tls_index ≠ i) → i ≠ 0 →
      lisp_symbol_from_tls_index symbols i = .error .NotFound) := by
  refine ⟨?_, ?_, ?_⟩
  · intro s hmem hidx hi huniq
    unfold lisp_symbol_from_tls_index
    rw [if_neg hi]
    have hsome : (symbols.find? (fun s' => s'.tls_index = i)).isSome := by
      rw [List.find?_isSome]
      exact ⟨s, hmem, by simp [hidx]⟩
    obtain ⟨r, hr⟩ := Option.isSome_iff_exists.mp hsome
    have hrs : r = s := by
      refine huniq r (List.mem_of_find?_eq_some hr) ?_
      have := List.find?_some hr
      simpa using this
    rw [hr, hrs]
  · simp [lisp_symbol_from_tls_index]
  · intro hnone hi
    unfold lisp_symbol_from_tls_index
    rw [if_neg hi]
    have : symbols.find? (fun s' => s'.tls_index = i) = none := by
      rw [List.find?_eq_none]
      intro s hs
      simp [hnone s hs]
    rw [this]

/-- C6 witness: among live symbols with TLS indices 3 and 5, index 5 resolves
to its owner, the sentinel 0 resolves to `NotFound`, and the unassigned index
9 resolves to `NotFound`. -/
theorem tls_reverse_lookup_inverse_witness :
    lisp_symbol_from_tls_index [⟨100, 3⟩, ⟨200, 5⟩] 5 = .ok ⟨200, 5⟩ ∧
    lisp_symbol_from_tls_index [⟨100, 3⟩, ⟨200, 5⟩] 0 = .error ScanError.NotFound ∧
    lisp_symbol_from_tls_index [⟨100, 3⟩, ⟨200, 5⟩] 9 = .error ScanError.NotFound := by
  have h := tls_reverse_lookup_inverse [⟨100, 3⟩, ⟨200, 5⟩] 5
  have h9 := tls_reverse_lookup_inverse [⟨100, 3⟩, ⟨200, 5⟩] 9
  exact ⟨h.1 ⟨200, 5⟩ (by simp) (by rfl) (by decide) (by decide),
    h.2.1, h9.2.2 (by decide) (by decide)⟩

/-- C7: with `start = end` the symbol scanner returns `NotFound` for every
memory whatsoever — so no heap memory is read. -/
theorem search_for_symbol_empty_region :
    ∀ (mem : Memory) (n : String) (e : Nat), n ≠ "" →
      search_for_symbol mem (some n) e e = .error .NotFound := by
  intro mem n e hn
  unfold search_for_symbol
  dsimp only
  rw [if_neg hn, if_neg (by omega : ¬ e < e)]
  simp [scanLoop]

/-- C7 witness: the empty region `[5, 5)` over an everywhere-undecodable heap
yields `NotFound`. -/
theorem search_for_symbol_empty_region_witness :
    search_for_symbol (fun _ => none) (some "FOO") 5 5 = .error ScanError.NotFound :=
  search_for_symbol_empty_region (fun _ => none) "FOO" 5 (by decide)

/-- C8: a null or empty name, or `start > end`, reports `InvalidArgument`
(for both the heap symbol scanner and the package resolver), and the three
error outcomes `NotFound`, `Corruption` and `InvalidArgument` are pairwise
distinct values, so invalid arguments and corruption are always reported
distinctly from `NotFound`. -/
theorem invalid_argument_distinct :
    (∀ (mem : Memory) (start endA : Nat),
      search_for_symbol mem none start endA = .error .InvalidArgument) ∧
    (∀ (mem : Memory) (start endA : Nat),
      search_for_symbol mem (some "") start endA = .error .InvalidArgument) ∧
    (∀ (mem : Memory) (name : Option String) (start endA : Nat), endA < start →
      search_for_symbol mem name start endA = .error .InvalidArgument) ∧
    (∀ (table : NamespaceTable) (s : Option String),
      find_symbol table none s = .error .InvalidArgument) ∧
    (∀ (table : NamespaceTable) (ns : Option String),
      find_symbol table ns none = .error .InvalidArgument) ∧
    (∀ (table : NamespaceTable) (s : Option String),
      find_symbol table (some "") s = .error .InvalidArgument) ∧
    (∀ (table : NamespaceTable) (ns : Option String),
      find_symbol table ns (some "") = .error .InvalidArgument) ∧
    (ScanError.InvalidArgument ≠ ScanError.NotFound ∧
      ScanError.Corruption ≠ ScanError.NotFound ∧
      ScanError.InvalidArgument ≠ ScanError.Corruption) := by
  refine ⟨?_, ?_, ?_, ?_, ?_, ?_, ?_, ?_⟩
  · intro mem start endA; rfl
  · intro mem start endA; simp [search_for_symbol]
  · intro mem name start endA h
    unfold search_for_symbol
    cases name with
    | none => rfl
    | some nm =>
      dsimp only
      by_cases h1 : nm = ""
      · rw [if_pos h1]
      · rw [if_neg h1, if_pos h]
  · intro table s; cases s <;> rfl
  · intro table ns; cases ns <;> rfl
  · intro table s
    cases s with
    | none => rfl
    | some s' => simp [find_symbol]
  · intro table ns
    cases ns with
    | none => rfl
    | some n' => simp [find_symbol]
  · exact ⟨by decide, by decide, by decide⟩

/-- C8 witness: concrete invalid-argument calls (null name, empty name,
inverted bounds) each report `InvalidArgument`. -/
theorem invalid_argument_distinct_witness :
    search_for_symbol memC2 none 0 6 = .error ScanError.InvalidArgument ∧
    search_for_symbol memC2 (some "") 0 6 = .error ScanError.InvalidArgument ∧
    search_for_symbol memC2 (some "FOO") 6 0 = .error ScanError.InvalidArgument ∧
    find_symbol [("CL", [("CAR", 10)])] (some "") (some "CAR") =
      .error ScanError.InvalidArgument := by
  have h := invalid_argument_distinct
  exact ⟨h.1 memC2 0 6, h.2.1 memC2 0 6, h.2.2.1 memC2 (some "FOO") 6 0 (by omega),
    h.2.2.2.2.2.1 [("CL", [("CAR", 10)])] (some "CAR")⟩

/-- C9: the declared `search_for_type` takes only the widetag, an in/out
cursor cell, and an in/out count cell: its parameter list carries no
region-end bound — no `lispobj` address value at all — unlike
`search_for_symbol`, which receives both `start` and `end` as `lispobj`
values; hence the count budget is the only limit the caller passes to it. -/
theorem search_for_type_decl_no_end_bound :
    search_for_type_decl.params =
      [CType.int, CType.ptr (CType.ptr CType.lispobj), CType.ptr CType.int] ∧
    search_for_type_decl.params.contains CType.lispobj = false ∧
    search_for_symbol_decl.params.count CType.lispobj = 2 := by
  refine ⟨rfl, by decide, by decide⟩

/-- C10: at the declared interface each heap scan reports its outcome
through a single result value — `search_for_symbol` returns one `lispobj`
pointer (its only pointer parameter being the name input string), and
`search_for_type` returns one `boolean` alongside its cursor and count cells
— and a boolean result admits no injective encoding of the three-way error
taxonomy, so no separate channel distinguishes Corruption from NotFound. -/
theorem scan_single_result_channel :
    search_for_symbol_decl.ret = CType.ptr CType.lispobj ∧
    search_for_symbol_decl.params.filter CType.isPointer = [CType.ptr CType.charT] ∧
    search_for_type_decl.ret = CType.boolean ∧
    search_for_type_decl.params.filter CType.isPointer =
      [CType.ptr (CType.ptr CType.lispobj), CType.ptr CType.int] ∧
    (∀ f : ScanError → Bool, ¬Function.Injective f) := by
  refine ⟨rfl, by decide, rfl, by decide, ?_⟩
  intro f hinj
  cases hb : f ScanError.NotFound <;> cases hc : f ScanError.Corruption <;>
    cases hd : f ScanError.InvalidArgument
  · exact ScanError.noConfusion (hinj (hb.trans hc.symm))
  · exact ScanError.noConfusion (hinj (hb.trans hc.symm))
  · exact ScanError.noConfusion (hinj (hb.trans hd.symm))
  · exact ScanError.noConfusion (hinj (hc.trans hd.symm))
  · exact ScanError.noConfusion (hinj (hc.trans hd.symm))
  · exact ScanError.noConfusion (hinj (hb.trans hd.symm))
  · exact ScanError.noConfusion (hinj (hb.trans hc.symm))
  · exact ScanError.noConfusion (hinj (hb.trans hc.symm))

/-- C10 witness: the constant-true encoding of the error taxonomy into the
declared boolean return is not injective. -/
theorem scan_single_result_channel_witness :
    ¬Function.Injective (fun _ : ScanError => true) :=
  scan_single_result_channel.2.2.2.2 (fun _ => true)
